import Mathlib

/-!
Verification of the asynchronous core of the sublime-text-debugger
repository (src/modules/core/core.py) together with its settings
descriptor (src/modules/settings.py) and the modules view
(src/modules/views/modules.py).

The Python code is shallowly embedded: the `Future` class subclasses
`asyncio.Future`, whose single-assignment state machine is embedded as
an explicit state type; the `done` callback of `run` is translated
clause by clause; dictionaries become association lists.
-/

namespace SublimeDebugger

/-! ## Future: single-assignment result cell

`Future` in core.py subclasses `asyncio.Future` bound to the sublime
event loop.  `asyncio.Future` holds a state in
{PENDING, FINISHED(result), FINISHED(exception), CANCELLED} plus a list
of completion callbacks; `set_result` / `set_exception` raise
`InvalidStateError` when the state is not PENDING, otherwise store the
outcome, schedule every callback and clear the callback list. -/

inductive FState (T E : Type) where
  | pending
  | done (v : T)
  | failed (e : E)
  | cancelled
  deriving DecidableEq, Repr

inductive FutureError where
  | invalidState
  deriving DecidableEq, Repr

structure Future (T E : Type) where
  state : FState T E
  callbacks : List Nat
  deriving DecidableEq, Repr

def Future.mkPending {T E : Type} : Future T E :=
  { state := .pending, callbacks := [] }

/-- Outcome of a mutating call on a Future: the raised-or-ok status, the
future afterwards (unchanged when the call raised, as in Python), and
the callbacks handed to the callback queue. -/
structure SetOutcome (T E : Type) where
  res : Except FutureError Unit
  fut : Future T E
  enqueued : List Nat
  deriving Repr

def Future.set_result {T E : Type} (f : Future T E) (v : T) : SetOutcome T E :=
  match f.state with
  | .pending => ⟨.ok (), { state := .done v, callbacks := [] }, f.callbacks⟩
  | _ => ⟨.error .invalidState, f, []⟩

def Future.set_error {T E : Type} (f : Future T E) (e : E) : SetOutcome T E :=
  match f.state with
  | .pending => ⟨.ok (), { state := .failed e, callbacks := [] }, f.callbacks⟩
  | _ => ⟨.error .invalidState, f, []⟩

/-- C1.  After a first successful `set_result v1`, a second
`set_result v2` and a `set_error e` both fail with `InvalidState`, and
the future stored by the first call is returned unchanged by the
rejected calls. -/
theorem set_result_twice_invalid_state {T E : Type} (f : Future T E)
    (v1 v2 : T) (e : E) (h : f.state = .pending) :
    (f.set_result v1).res = .ok () ∧
    (f.set_result v1).fut.state = .done v1 ∧
    ((f.set_result v1).fut.set_result v2).res = .error .invalidState ∧
    ((f.set_result v1).fut.set_result v2).fut = (f.set_result v1).fut ∧
    ((f.set_result v1).fut.set_error e).res = .error .invalidState ∧
    ((f.set_result v1).fut.set_error e).fut = (f.set_result v1).fut := by
  obtain ⟨st, cbs⟩ := f
  simp only [Future.set_result, Future.set_error] at *
  subst h
  simp [Future.set_result, Future.set_error]

/-- Witness for C1 at a concrete pending future. -/
theorem set_result_twice_invalid_state_witness :
    ((Future.mkPending : Future Nat Nat).set_result 1).res = .ok () ∧
    ((Future.mkPending : Future Nat Nat).set_result 1).fut.state = .done 1 ∧
    (((Future.mkPending : Future Nat Nat).set_result 1).fut.set_result 2).res
      = .error .invalidState ∧
    (((Future.mkPending : Future Nat Nat).set_result 1).fut.set_result 2).fut
      = ((Future.mkPending : Future Nat Nat).set_result 1).fut ∧
    (((Future.mkPending : Future Nat Nat).set_result 1).fut.set_error 7).res
      = .error .invalidState ∧
    (((Future.mkPending : Future Nat Nat).set_result 1).fut.set_error 7).fut
      = ((Future.mkPending : Future Nat Nat).set_result 1).fut :=
  set_result_twice_invalid_state Future.mkPending 1 2 7 rfl

/-! ## run: completion callbacks

`run(awaitable, on_success, on_error)` wraps the awaitable in a task and
attaches the inner `done` closure as a completion callback — but only
when at least one of `on_success` / `on_error` is supplied.  A task's
final outcome is a value, an exception, or cancellation;
`task.result()` returns the value, re-raises the stored exception, or
raises `CancelledError`. -/

inductive TaskErr (E : Type) where
  | err (e : E)
  | cancelledError
  deriving DecidableEq, Repr

inductive Outcome (T E : Type) where
  | done (v : T)
  | failed (e : E)
  | cancelled
  deriving DecidableEq, Repr

def Outcome.result {T E : Type} : Outcome T E → Except (TaskErr E) T
  | .done v => .ok v
  | .failed e => .error (.err e)
  | .cancelled => .error .cancelledError

/-- One recorded invocation of a supplied callback. -/
inductive CbCall (T E : Type) where
  | success (v : T)
  | error (e : TaskErr E)
  deriving DecidableEq, Repr

/-- The `done` closure inside `run`, translated clause by clause.
`on_success` is a Python callable and may itself raise (modelled by
returning `Except.error`); an exception raised by the body of the
`try` — by `task.result()` or by `on_success(result)` — is caught and
handed to `on_error`.  Without `on_error`, `task.result()` may raise out
of `done` before `on_success` is ever called.  Returns the callback
invocations performed, in order. -/
def doneCallback {T E : Type} (on_success : Option (T → Except (TaskErr E) Unit))
    (on_error : Option (TaskErr E → Unit)) (out : Outcome T E) :
    List (CbCall T E) :=
  match on_error with
  | some _ =>
    match out.result with
    | .error e => [.error e]
    | .ok v =>
      match on_success with
      | none => []
      | some f =>
        match f v with
        | .ok _ => [.success v]
        | .error e => [.success v, .error e]
  | none =>
    match on_success with
    | some _ =>
      match out.result with
      | .ok v => [.success v]
      | .error _ => []
    | none => []

/-- The callback invocations a single completion of the task produced by
`run` triggers: `done` is attached only when a callback was supplied. -/
def runInvocations {T E : Type} (on_success : Option (T → Except (TaskErr E) Unit))
    (on_error : Option (TaskErr E → Unit)) (out : Outcome T E) :
    List (CbCall T E) :=
  match on_error, on_success with
  | none, none => []
  | _, _ => doneCallback on_success on_error out

def hasSuccessCall {T E : Type} (calls : List (CbCall T E)) : Bool :=
  calls.any fun c => match c with | .success _ => true | .error _ => false

def hasErrorCall {T E : Type} (calls : List (CbCall T E)) : Bool :=
  calls.any fun c => match c with | .success _ => false | .error _ => true

/-- C2 counterexample.  When `on_success` itself raises, the `try` block
of `done` catches that exception and additionally invokes `on_error`:
both callbacks fire for the same completion. -/
theorem run_both_callbacks_invoked :
    hasSuccessCall (@runInvocations Nat Nat
        (some fun _ => .error (.err 7)) (some fun _ => ()) (.done 0)) = true ∧
    hasErrorCall (@runInvocations Nat Nat
        (some fun _ => .error (.err 7)) (some fun _ => ()) (.done 0)) = true :=
  ⟨rfl, rfl⟩

/-- C2 amended.  Provided `on_success` does not itself raise, at most
one of the two supplied callbacks is invoked per completion — never
both — and when neither callback is supplied (in particular for a
cancelled task) nothing is invoked at all. -/
theorem run_at_most_one_callback {T E : Type}
    (on_success : Option (T → Except (TaskErr E) Unit))
    (on_error : Option (TaskErr E → Unit)) (out : Outcome T E)
    (hns : ∀ f, on_success = some f → ∀ v, f v = .ok ()) :
    ¬(hasSuccessCall (runInvocations on_success on_error out) = true ∧
      hasErrorCall (runInvocations on_success on_error out) = true) ∧
    @runInvocations T E none none out = [] := by
  refine ⟨?_, rfl⟩
  cases on_error with
  | none =>
    cases on_success with
    | none => simp [runInvocations, hasSuccessCall, hasErrorCall]
    | some f =>
      cases out <;>
        simp [runInvocations, doneCallback, Outcome.result,
          hasSuccessCall, hasErrorCall]
  | some g =>
    cases on_success with
    | none =>
      cases out <;>
        simp [runInvocations, doneCallback, Outcome.result,
          hasSuccessCall, hasErrorCall]
    | some f =>
      cases out with
      | done v =>
        have hf := hns f rfl v
        simp [runInvocations, doneCallback, Outcome.result, hf,
          hasSuccessCall, hasErrorCall]
      | failed e =>
        simp [runInvocations, doneCallback, Outcome.result,
          hasSuccessCall, hasErrorCall]
      | cancelled =>
        simp [runInvocations, doneCallback, Outcome.result,
          hasSuccessCall, hasErrorCall]

/-- Witness for C2 amended at a concrete non-raising callback pair. -/
theorem run_at_most_one_callback_witness :
    (¬(hasSuccessCall (@runInvocations Nat Nat
        (some fun _ => .ok ()) (some fun _ => ()) (.done 3)) = true ∧
      hasErrorCall (@runInvocations Nat Nat
        (some fun _ => .ok ()) (some fun _ => ()) (.done 3)) = true) ∧
    @runInvocations Nat Nat none none (.done 3) = []) :=
  run_at_most_one_callback (some fun _ => .ok ()) (some fun _ => ()) (.done 3)
    (by intro f h v; cases h; rfl)

/-! ## run: immediate synchronous first advance -/

/-- A coroutine body: finitely many synchronous computation steps ending
in a return, a raised exception, or a suspension awaiting a future. -/
inductive Coro (T E : Type) where
  | ret (v : T)
  | raiseE (e : E)
  | step (rest : Coro T E)
  | awaitF (fid : Nat) (rest : Coro T E)
  deriving DecidableEq, Repr

/-- Where a task stands after being driven once. -/
inductive TaskPhase (T E : Type) where
  | completed (v : T)
  | failedWith (e : E)
  | suspended (fid : Nat)
  deriving DecidableEq, Repr

/-- Modelled from the spec: the first step of the task created by
`run` via `asyncio.ensure_future` on the repository's SublimeEventLoop
(imported by core.py but not under src/).  Per spec 4.4 the task is
driven immediately: the body is advanced synchronously until it returns
a value, raises, or suspends on a future.  Returns the number of
synchronous steps executed and the phase reached. -/
def drive {T E : Type} : Coro T E → Nat × TaskPhase T E
  | .ret v => (0, .completed v)
  | .raiseE e => (0, .failedWith e)
  | .step rest => ((drive rest).1 + 1, (drive rest).2)
  | .awaitF fid _ => (0, .suspended fid)

/-- The outcome future's state as `run` returns: resolved for a body
that already finished, pending for a body parked at a suspension. -/
def futureOfPhase {T E : Type} : TaskPhase T E → FState T E
  | .completed v => .done v
  | .failedWith e => .failed e
  | .suspended _ => .pending

/-- `run` in the model: drive the fresh task once, synchronously, and
hand back its outcome future. -/
def runModel {T E : Type} (body : Coro T E) : Future T E × TaskPhase T E :=
  ({ state := futureOfPhase (drive body).2, callbacks := [] }, (drive body).2)

/-- The number of synchronous steps before the body's first suspension
point or completion. -/
def leadingSteps {T E : Type} : Coro T E → Nat
  | .step rest => leadingSteps rest + 1
  | _ => 0

/-- The body's first suspension point or terminal action. -/
def firstPause {T E : Type} : Coro T E → Coro T E
  | .step rest => firstPause rest
  | c => c

/-- C3.  `run` executes exactly the synchronous steps preceding the
body's first suspension point or completion — no fewer and no more —
and returns the task's outcome future: already resolved when the body
ran to completion, pending when it suspended awaiting a future. -/
theorem run_advances_to_first_pause {T E : Type} (body : Coro T E) :
    (drive body).1 = leadingSteps body ∧
    (drive body).2 = (match firstPause body with
      | .ret v => .completed v
      | .raiseE e => .failedWith e
      | .awaitF fid _ => .suspended fid
      | .step _ => .suspended 0) ∧
    (runModel body).1.state = futureOfPhase (drive body).2 := by
  refine ⟨?_, ?_, rfl⟩
  · induction body with
    | ret v => rfl
    | raiseE e => rfl
    | step rest ih => simp [drive, leadingSteps, ih]
    | awaitF fid rest => rfl
  · induction body with
    | ret v => rfl
    | raiseE e => rfl
    | step rest ih => simpa [drive, firstPause] using ih
    | awaitF fid rest => rfl

/-! ## gather and gather_results

core.py exposes `gather` as `asyncio.gather(...)` (fail-fast: the first
child exception, in completion order, becomes the outer result) and
`gather_results` as `asyncio.gather(..., return_exceptions=True)`
(each child's value-or-exception is stored in its input-order slot as it
completes; once every slot is filled the outer future resolves with the
list read out in input order).  Children are given by their eventual
outcomes `outs` (input order) and by the order `order` in which they
complete, as a list of input indices. -/

def gatherFailFast {T E : Type} (outs : List (Except E T)) : List Nat → Except E (List T)
  | [] => .ok (outs.filterMap fun o => o.toOption)
  | i :: rest =>
    match outs[i]? with
    | some (.error e) => .error e
    | _ => gatherFailFast outs rest

def fillSlots {T E : Type} (outs : List (Except E T)) : List Nat → List (Nat × Except E T)
  | [] => []
  | i :: rest =>
    match outs[i]? with
    | some o => (i, o) :: fillSlots outs rest
    | none => fillSlots outs rest

def slotLookup {T E : Type} : List (Nat × Except E T) → Nat → Option (Except E T)
  | [], _ => none
  | (k, o) :: rest, i => if k = i then some o else slotLookup rest i

def readout {T E : Type} (slots : List (Nat × Except E T)) : List Nat → Option (List (Except E T))
  | [] => some []
  | i :: rest =>
    match slotLookup slots i, readout slots rest with
    | some o, some l => some (o :: l)
    | _, _ => none

def gather_results {T E : Type} (outs : List (Except E T)) (order : List Nat) :
    Option (List (Except E T)) :=
  readout (fillSlots outs order) (List.range outs.length)

theorem gatherFailFast_first_error {T E : Type} (outs : List (Except E T))
    (order : List Nat) (j : Nat) (e : E)
    (hj : outs[j]? = some (.error e)) (hmem : j ∈ order)
    (honly : ∀ i, i ∈ order → i ≠ j → ∀ e2, outs[i]? ≠ some (.error e2)) :
    gatherFailFast outs order = .error e := by
  induction order with
  | nil => cases hmem
  | cons i rest ih =>
    by_cases hij : i = j
    · subst hij
      simp only [gatherFailFast, hj]
    · have hrec : gatherFailFast outs rest = .error e := by
        refine ih ?_ ?_
        · rcases List.mem_cons.1 hmem with h | h
          · exact absurd h.symm hij
          · exact h
        · intro k hk hkj e2
          exact honly k (List.mem_cons_of_mem i hk) hkj e2
      have hi : ∀ e2, outs[i]? ≠ some (.error e2) :=
        honly i (List.mem_cons_self i rest) hij
      simp only [gatherFailFast]
      rcases h : outs[i]? with _ | o
      · exact hrec
      · rcases o with e2 | v
        · exact absurd h (hi e2)
        · exact hrec

theorem slotLookup_fillSlots {T E : Type} (outs : List (Except E T))
    (order : List Nat) (i : Nat) (o : Except E T)
    (hi : i ∈ order) (ho : outs[i]? = some o) :
    slotLookup (fillSlots outs order) i = some o := by
  induction order with
  | nil => cases hi
  | cons k rest ih =>
    by_cases hki : k = i
    · subst hki
      simp [fillSlots, ho, slotLookup]
    · have hi2 : i ∈ rest := by
        rcases List.mem_cons.1 hi with h | h
        · exact absurd h.symm hki
        · exact h
      rcases h : outs[k]? with _ | o2 <;>
        simp only [fillSlots, h, slotLookup, if_neg hki] <;>
        exact ih hi2

theorem readout_fillSlots {T E : Type} (outs : List (Except E T))
    (order : List Nat) (idxs : List Nat)
    (h : ∀ i, i ∈ idxs → i ∈ order ∧ ∃ o, outs[i]? = some o) :
    readout (fillSlots outs order) idxs
      = some (idxs.filterMap fun i => outs[i]?) := by
  induction idxs with
  | nil => rfl
  | cons i rest ih =>
    obtain ⟨hi, o, ho⟩ := h i (List.mem_cons_self i rest)
    have hrest := ih fun k hk => h k (List.mem_cons_of_mem i hk)
    simp only [readout, slotLookup_fillSlots outs order i o hi ho, hrest,
      List.filterMap_cons, ho]

theorem filterMap_get_range {α : Type} (l : List α) :
    (List.range l.length).filterMap (fun i => l[i]?) = l := by
  induction l with
  | nil => rfl
  | cons a t ih =>
    have : (List.range (t.length + 1)) = 0 :: (List.range t.length).map (· + 1) :=
      List.range_succ_eq_map t.length
    simp only [List.length_cons, this, List.filterMap_cons, List.getElem?_cons_zero,
      List.filterMap_map]
    have : (fun i => (a :: t)[i + 1]?) = fun i => t[i]? := by
      funext i
      simp
    simp only [Function.comp_def, List.getElem?_cons_succ]
    exact congrArg (a :: ·) ih

theorem gather_results_all {T E : Type} (outs : List (Except E T))
    (order : List Nat) (hcov : ∀ i, i < outs.length → i ∈ order) :
    gather_results outs order = some outs := by
  unfold gather_results
  rw [readout_fillSlots]
  · rw [filterMap_get_range]
  · intro i hi
    have hlt : i < outs.length := List.mem_range.1 hi
    exact ⟨hcov i hlt, outs.get ⟨i, hlt⟩, List.getElem?_eq_getElem hlt⟩

/-- C4.  With three awaitables where the middle one fails with `e` and
the outer ones succeed: fail-fast `gather` resolves `Failed` with `e`
whatever the completion order, while `gather_results` resolves
successfully with the length-3 sequence in input order, slot 1 holding
`e` and the other slots holding the values. -/
theorem gather_middle_failure {T E : Type} (va vc : T) (e : E) (order : List Nat)
    (hperm : order.Perm [0, 1, 2]) :
    gatherFailFast [.ok va, .error e, .ok vc] order = .error e ∧
    gather_results [.ok va, .error e, .ok vc] order
      = some [.ok va, .error e, .ok vc] ∧
    (gather_results [.ok va, .error e, .ok vc] order).map List.length = some 3 ∧
    (gather_results [.ok va, .error e, .ok vc] order).bind (fun l => l[1]?)
      = some (.error e) := by
  have hmem : ∀ i, i ∈ order ↔ i ∈ [0, 1, 2] := fun i => hperm.mem_iff
  have hres : gather_results [Except.ok va, Except.error e, Except.ok vc] order
      = some [Except.ok va, Except.error e, Except.ok vc] := by
    refine gather_results_all _ order ?_
    intro i hi
    refine (hmem i).2 ?_
    simp only [List.length_cons, List.length_nil] at hi
    interval_cases i <;> simp
  refine ⟨?_, hres, ?_, ?_⟩
  · refine gatherFailFast_first_error _ order 1 e rfl ((hmem 1).2 (by simp)) ?_
    intro i hi hne e2
    have : i ∈ [0, 1, 2] := (hmem i).1 hi
    simp only [List.mem_cons, List.not_mem_nil, or_false] at this
    rcases this with h | h | h <;> subst h
    · simp
    · exact absurd rfl hne
    · simp
  · rw [hres]
    rfl
  · rw [hres]
    rfl

/-- Witness for C4 at the concrete completion order c, a, b. -/
theorem gather_middle_failure_witness :
    @gatherFailFast Nat Nat [.ok 10, .error 5, .ok 20] [2, 0, 1] = .error 5 ∧
    @gather_results Nat Nat [.ok 10, .error 5, .ok 20] [2, 0, 1]
      = some [.ok 10, .error 5, .ok 20] ∧
    (@gather_results Nat Nat [.ok 10, .error 5, .ok 20] [2, 0, 1]).map List.length
      = some 3 ∧
    (@gather_results Nat Nat [.ok 10, .error 5, .ok 20] [2, 0, 1]).bind
      (fun l => l[1]?) = some (.error 5) :=
  gather_middle_failure 10 20 5 [2, 0, 1] (by decide)

/-! ## run_in_executor: the Worker Offload Bridge

`run_in_executor(func, *args)` submits `func` to the bounded worker pool
and wraps the resulting concurrent future for the sublime event loop.
The submitting call returns a still-pending Future at once, paired here
with the job the worker will run later; on completion the worker hands
the outcome back to the loop, where a delivery callback performs
`set_result` / `set_error` (documented semantics of
`concurrent.futures.ThreadPoolExecutor.submit` and
`asyncio.futures.wrap_future`, spec 4.5). -/

def run_in_executor {A T E : Type} (func : A → Except E T) (x : A) :
    Future T E × (Unit → Except E T) :=
  (Future.mkPending, fun _ => func x)

/-- The loop-side delivery callback bridging a finished worker job to
the wrapped Future. -/
def deliverOutcome {T E : Type} (fut : Future T E) (r : Except E T) : SetOutcome T E :=
  match r with
  | .ok v => fut.set_result v
  | .error e => fut.set_error e

/-- C5.  When `func x` raises `e`, `run_in_executor func x` still hands
back a Future that is pending at return time — the submitting call never
raises — and once the worker's outcome is delivered, that Future is
`Failed` with `e`, reached through the error path (`set_error` succeeds
on the pending Future). -/
theorem run_in_executor_error_path {A T E : Type} (func : A → Except E T)
    (x : A) (e : E) (h : func x = .error e) :
    (run_in_executor func x).1.state = .pending ∧
    (deliverOutcome (run_in_executor func x).1
      ((run_in_executor func x).2 ())).res = .ok () ∧
    (deliverOutcome (run_in_executor func x).1
      ((run_in_executor func x).2 ())).fut.state = .failed e := by
  refine ⟨rfl, ?_, ?_⟩ <;>
    simp [run_in_executor, deliverOutcome, h, Future.set_error, Future.mkPending]

/-- Witness for C5 at a concrete always-raising function. -/
theorem run_in_executor_error_path_witness :
    ((@run_in_executor Nat Nat Nat (fun n => .error (n + 1)) 4).1.state
      = .pending) ∧
    (deliverOutcome (@run_in_executor Nat Nat Nat (fun n => .error (n + 1)) 4).1
      ((@run_in_executor Nat Nat Nat (fun n => .error (n + 1)) 4).2 ())).res
      = .ok () ∧
    (deliverOutcome (@run_in_executor Nat Nat Nat (fun n => .error (n + 1)) 4).1
      ((@run_in_executor Nat Nat Nat (fun n => .error (n + 1)) 4).2 ())).fut.state
      = .failed 5 :=
  run_in_executor_error_path (fun n => .error (n + 1)) 4 5 rfl

/-! ## wait

`wait(fs)` delegates to `asyncio.wait(fs, loop=...)` with the default
`return_when=ALL_COMPLETED`: once every input future has completed, the
returned awaitable resolves with the PAIR `(done, pending)` of sets,
`done` holding all the input futures and `pending` empty.  Resolved
values are embedded into a small universe of Python values; futures are
identified by ids. -/

inductive Val where
  | fut (id : Nat)
  | listV (xs : List Val)
  | tupleV (xs : List Val)
  | setV (xs : List Val)

/-- The value `wait(fs)` resolves with once all of `fs` completed
(documented semantics of `asyncio.wait`, ALL_COMPLETED). -/
def waitResolve (fs : List Nat) : Val :=
  .tupleV [.setV (fs.map .fut), .setV []]

/-- The spec's reading, for comparison: `wait(futures) ->
completed_list`, the resolved value being the single list of the
completed futures. -/
def waitCompletedList (fs : List Nat) : Val :=
  .listV (fs.map .fut)

def tupleComponents : Val → List Val
  | .tupleV xs => xs
  | v => [v]

def collectionElems : Val → List Val
  | .setV xs => xs
  | .listV xs => xs
  | .tupleV xs => xs
  | v => [v]

/-- C6 counterexample.  Already on a single completed future, the value
`wait` resolves with is the `(done, pending)` pair, not the single list
of completed futures the claim describes. -/
theorem wait_value_not_single_list : waitResolve [0] ≠ waitCompletedList [0] :=
  fun h => Val.noConfusion h

/-- C6 amended.  Once all input futures complete, `wait(fs)` resolves
with a pair of sets `(done, pending)` whose first component holds
exactly the completed futures of the claim's `completed_list` and whose
second component is empty. -/
theorem wait_resolves_done_pending_pair (fs : List Nat) :
    waitResolve fs = .tupleV [.setV (fs.map .fut), .setV []] ∧
    ((tupleComponents (waitResolve fs))[0]?).map collectionElems
      = some (collectionElems (waitCompletedList fs)) ∧
    (tupleComponents (waitResolve fs))[1]? = some (.setV []) := by
  exact ⟨rfl, rfl, rfl⟩

/-! ## Unobserved failures

When `run` is given neither `on_success` nor `on_error`, no completion
callback is attached to the task.  A failing task with no subscriber is
picked up by the event loop's unhandled-exception path and reported
through `display`, which wraps `sublime.error_message`. -/

/-- `display(msg)`: the error messages emitted to the host environment's
error display (`sublime.error_message` applied to the formatted
message). -/
def display (msg : String) : List String :=
  [msg]

/-- Modelled from the spec: the event loop's treatment of a task whose
outcome future fails with no completion callback attached (the
SublimeEventLoop class driving the tasks is imported by core.py but is
not under src/).  Per the spec's error-handling design, such a failure
is surfaced through the host environment's error display rather than
dropped. -/
def surfacedMessages {T : Type} (out : Outcome T String) (attached : Bool) :
    List String :=
  if attached then []
  else
    match out with
    | .failed e => display e
    | _ => []

/-- `run` with its diagnostic surface: the invocations of the supplied
callbacks together with the messages surfaced for an unobserved
failure. -/
def runObserved {T : Type} (on_success : Option (T → Except (TaskErr String) Unit))
    (on_error : Option (TaskErr String → Unit)) (out : Outcome T String) :
    List (CbCall T String) × List String :=
  (runInvocations on_success on_error out,
   surfacedMessages out (on_error.isSome || on_success.isSome))

/-- C7.  A body run with neither callback supplied that fails with `e`
attaches no subscriber — no callback invocation happens — yet the
failure is surfaced to the error display, not silently dropped. -/
theorem unobserved_failure_surfaced {T : Type} (e : String) :
    (@runObserved T none none (.failed e)).1 = [] ∧
    (@runObserved T none none (.failed e)).2 = display e ∧
    (@runObserved T none none (.failed e)).2 ≠ [] := by
  refine ⟨rfl, rfl, ?_⟩
  simp [runObserved, surfacedMessages, display]

/-! ## call_soon and call_soon_threadsafe

Both wrappers in core.py are one-liners delegating to
`sublime_event_loop.call_soon(callback, *args)`.  The loop's callback
queue is modelled from the spec (section 4.2: `call_soon` appends the
entry at the queue's tail); the loop class itself is imported by core.py
but not under src/.  `lockOps` counts synchronization operations taken,
to express that the threadsafe variant adds none. -/

structure LoopState where
  queue : List (Nat × List Nat)
  lockOps : Nat
  deriving DecidableEq, Repr

/-- Modelled from the spec: `SublimeEventLoop.call_soon` appends the
callback entry at the tail of the callback queue. -/
def eventLoopCallSoon (cb : Nat) (args : List Nat) (st : LoopState) : LoopState :=
  { st with queue := st.queue ++ [(cb, args)] }

/-- core.call_soon_threadsafe: `sublime_event_loop.call_soon(callback, *args)`. -/
def call_soon_threadsafe (cb : Nat) (args : List Nat) (st : LoopState) : LoopState :=
  eventLoopCallSoon cb args st

/-- core.call_soon: `sublime_event_loop.call_soon(callback, *args)`. -/
def call_soon (cb : Nat) (args : List Nat) (st : LoopState) : LoopState :=
  eventLoopCallSoon cb args st

/-- C8.  `call_soon_threadsafe` and `call_soon` are extensionally equal:
on every loop state they perform the identical tail enqueue, and the
threadsafe variant takes no additional synchronization. -/
theorem call_soon_threadsafe_eq_call_soon (cb : Nat) (args : List Nat)
    (st : LoopState) :
    call_soon_threadsafe cb args st = call_soon cb args st ∧
    (call_soon_threadsafe cb args st).queue = st.queue ++ [(cb, args)] ∧
    (call_soon_threadsafe cb args st).lockOps = st.lockOps :=
  ⟨rfl, rfl, rfl⟩

/-! ## Setting.__get__

`Setting` (settings.py) is a descriptor over the shared sublime settings
store; `__get__` is `SettingsRegistery.settings.get(self.key,
self.default)`.  The store is an association list; `sublime.Settings.get`
returns the stored value for the key, or the supplied default when the
key is absent, without modifying the store. -/

structure Setting (V : Type) where
  key : String
  default : V
  description : String
  visible : Bool

def storeGet {V : Type} : List (String × V) → String → V → V
  | [], _, d => d
  | (k, v) :: rest, key, d => if k = key then v else storeGet rest key d

/-- The value stored under a key, if any: the membership observer used
to state presence and absence of a key. -/
def storeFind {V : Type} : List (String × V) → String → Option V
  | [], _ => none
  | (k, v) :: rest, key => if k = key then some v else storeFind rest key

/-- `Setting.__get__`: reads the store, which it hands back untouched. -/
def Setting.get {V : Type} (s : Setting V) (store : List (String × V)) :
    V × List (String × V) :=
  (storeGet store s.key s.default, store)

theorem storeGet_present {V : Type} (store : List (String × V)) (key : String)
    (d v : V) (hv : storeFind store key = some v) : storeGet store key d = v := by
  induction store with
  | nil => cases hv
  | cons p rest ih =>
    obtain ⟨k, w⟩ := p
    by_cases hk : k = key
    · simp only [storeFind, if_pos hk] at hv
      simp only [storeGet, if_pos hk]
      exact Option.some.inj hv
    · simp only [storeFind, if_neg hk] at hv
      simp only [storeGet, if_neg hk]
      exact ih hv

theorem storeGet_absent {V : Type} (store : List (String × V)) (key : String)
    (d : V) (hv : storeFind store key = none) : storeGet store key d = d := by
  induction store with
  | nil => rfl
  | cons p rest ih =>
    obtain ⟨k, w⟩ := p
    by_cases hk : k = key
    · simp only [storeFind, if_pos hk] at hv
      cases hv
    · simp only [storeFind, if_neg hk] at hv
      simp only [storeGet, if_neg hk]
      exact ih hv

/-- C9.  Reading a `Setting` never writes to the store, returns the
stored value when the key is present, and the setting's default when the
key is absent. -/
theorem setting_get_reads_only {V : Type} (s : Setting V)
    (store : List (String × V)) :
    (s.get store).2 = store ∧
    (∀ v, storeFind store s.key = some v → (s.get store).1 = v) ∧
    (storeFind store s.key = none → (s.get store).1 = s.default) :=
  ⟨rfl,
   fun v hv => storeGet_present store s.key s.default v hv,
   fun hv => storeGet_absent store s.key s.default hv⟩

/-- Witness for C9: a present key reads its stored value, an absent key
reads the default, and the store is handed back unchanged. -/
theorem setting_get_reads_only_witness :
    ((Setting.mk "a" 7 "" true).get [("a", 42)]).2 = [("a", 42)] ∧
    ((Setting.mk "a" 7 "" true).get [("a", 42)]).1 = 42 ∧
    ((Setting.mk "b" 7 "" true).get [("a", 42)]).1 = 7 :=
  ⟨(setting_get_reads_only (Setting.mk "a" 7 "" true) [("a", 42)]).1,
   (setting_get_reads_only (Setting.mk "a" 7 "" true) [("a", 42)]).2.1 42 rfl,
   (setting_get_reads_only (Setting.mk "b" 7 "" true) [("a", 42)]).2.2 rfl⟩

/-! ## ModulesTabbedView: expanded toggling

`ModulesTabbedView.__init__` starts with `self.expanded = {}`;
`is_expanded(module)` is `self.expanded.get(module.id, False)`;
`toggle_expanded(module)` writes the negated flag back under
`module.id`.  The dict is an association list keyed by module id, with
Python dict semantics: assignment replaces an existing key's value in
place or appends a fresh key. -/

def dictGet : List (Nat × Bool) → Nat → Bool
  | [], _ => false
  | (k, b) :: rest, key => if k = key then b else dictGet rest key

def dictSet : List (Nat × Bool) → Nat → Bool → List (Nat × Bool)
  | [], key, v => [(key, v)]
  | (k, b) :: rest, key, v =>
    if k = key then (k, v) :: rest else (k, b) :: dictSet rest key v

structure ModulesTabbedView where
  expanded : List (Nat × Bool)
  deriving DecidableEq, Repr

def ModulesTabbedView.init : ModulesTabbedView :=
  { expanded := [] }

def is_expanded (view : ModulesTabbedView) (mid : Nat) : Bool :=
  dictGet view.expanded mid

def toggle_expanded (view : ModulesTabbedView) (mid : Nat) : ModulesTabbedView :=
  if is_expanded view mid then
    { view with expanded := dictSet view.expanded mid false }
  else
    { view with expanded := dictSet view.expanded mid true }

theorem dictGet_dictSet_same (d : List (Nat × Bool)) (k : Nat) (v : Bool) :
    dictGet (dictSet d k v) k = v := by
  induction d with
  | nil => simp [dictSet, dictGet]
  | cons p rest ih =>
    obtain ⟨k2, b⟩ := p
    by_cases hk : k2 = k
    · subst hk
      simp [dictSet, dictGet]
    · simp only [dictSet, if_neg hk, dictGet, ih]

theorem dictGet_dictSet_other (d : List (Nat × Bool)) (k k2 : Nat) (v : Bool)
    (h : k2 ≠ k) : dictGet (dictSet d k v) k2 = dictGet d k2 := by
  induction d with
  | nil =>
    have hne : ¬(k = k2) := fun hh => h hh.symm
    simp [dictSet, dictGet, hne]
  | cons p rest ih =>
    obtain ⟨k3, b⟩ := p
    by_cases hk : k3 = k
    · subst hk
      have hne : ¬(k3 = k2) := fun hh => h hh.symm
      simp [dictSet, dictGet, hne]
    · simp only [dictSet, if_neg hk, dictGet]
      by_cases hk2 : k3 = k2
      · simp [hk2]
      · simp [hk2, ih]

/-- C10.  A never-toggled module is not expanded in a fresh view, each
`toggle_expanded` negates that module's `is_expanded` flag while leaving
every other module's flag untouched, and two consecutive toggles restore
the original flag. -/
theorem toggle_expanded_involutive (view : ModulesTabbedView) (m m2 : Nat) :
    is_expanded ModulesTabbedView.init m = false ∧
    is_expanded (toggle_expanded view m) m = !is_expanded view m ∧
    is_expanded (toggle_expanded (toggle_expanded view m) m) m
      = is_expanded view m ∧
    (m2 ≠ m → is_expanded (toggle_expanded view m) m2 = is_expanded view m2) := by
  have hneg : ∀ w : ModulesTabbedView, is_expanded (toggle_expanded w m) m
      = !is_expanded w m := by
    intro w
    unfold toggle_expanded
    by_cases h : is_expanded w m
    · rw [if_pos h]
      have h2 : dictGet w.expanded m = true := h
      simp [is_expanded, dictGet_dictSet_same, h2]
    · rw [if_neg h]
      have h2 : dictGet w.expanded m = false := by simpa using h
      simp [is_expanded, dictGet_dictSet_same, h2]
  refine ⟨rfl, hneg view, ?_, ?_⟩
  · rw [hneg (toggle_expanded view m), hneg view, Bool.not_not]
  · intro hne
    unfold toggle_expanded
    by_cases h : is_expanded view m
    · rw [if_pos h]
      simp [is_expanded, dictGet_dictSet_other _ _ _ _ hne]
    · rw [if_neg h]
      simp [is_expanded, dictGet_dictSet_other _ _ _ _ hne]

/-- Witness for C10 on a view with one other module expanded. -/
theorem toggle_expanded_involutive_witness :
    is_expanded ModulesTabbedView.init 3 = false ∧
    is_expanded (toggle_expanded (ModulesTabbedView.mk [(5, true)]) 3) 3
      = !is_expanded (ModulesTabbedView.mk [(5, true)]) 3 ∧
    is_expanded
      (toggle_expanded (toggle_expanded (ModulesTabbedView.mk [(5, true)]) 3) 3) 3
      = is_expanded (ModulesTabbedView.mk [(5, true)]) 3 ∧
    is_expanded (toggle_expanded (ModulesTabbedView.mk [(5, true)]) 3) 5
      = is_expanded (ModulesTabbedView.mk [(5, true)]) 5 := by
  have h := toggle_expanded_involutive (ModulesTabbedView.mk [(5, true)]) 3 5
  exact ⟨h.1, h.2.1, h.2.2.1, h.2.2.2 (by decide)⟩

end SublimeDebugger
